import Mathlib

/-!
Verification development for the stock-price news dataset generator
(src/Dataset/generator.py).  The Python source is shallowly embedded:
pure string manipulation becomes Lean functions on `String` and
`List Char`, the per-day retry loop of `fetch_gdelt_finance_news`
becomes a recursive function over an explicit list of simulated
responses, and exceptional control flow is explicit
(`Option` / dedicated outcome constructors).
-/

namespace StockGen

/-! ## Python string primitives (ASCII fragment)

The source manipulates ASCII company names, keywords and JSON bodies;
the embedding models the ASCII behaviour of the Python string
operations it uses. -/

/-- Model of the Python whitespace class (ASCII part), as matched by
the regex class backslash-s, by str.strip() and by str.split(). -/
def isPySpace (c : Char) : Bool :=
  c = ' ' || c = '\t' || c = '\n' || c = '\x0d' || c = '\x0b' || c = '\x0c'

/-- Model of Python str.lower() on ASCII text. -/
def pyLower (s : String) : String :=
  String.mk (s.data.map Char.toLower)

/-- Model of the Python truthiness idiom `x or d` for an optional
string `x`: `None` and the empty string both fall through to `d`. -/
def pyOrStr (x : Option String) (d : String) : String :=
  match x with
  | none => d
  | some s => if s = "" then d else s

/-- Decidable check that `needle` occurs as a contiguous infix of
`hay`; models the Python `needle in hay` substring test. -/
def listContainsSeq [BEq α] (hay needle : List α) : Bool :=
  match hay with
  | [] => needle.isEmpty
  | _ :: t => needle.isPrefixOf hay || listContainsSeq t needle

/-- Model of the Python substring containment test `needle in hay`. -/
def strContains (hay needle : String) : Bool :=
  listContainsSeq hay.data needle.data

/-- Model of `re.sub(r'[^A-Za-z0-9\s]', '', s)`: drop every character
that is not an ASCII letter, digit or whitespace. -/
def stripNonAlnumWs (s : String) : String :=
  String.mk (s.data.filter (fun c => c.isAlphanum || isPySpace c))

/-- Model of Python str.strip(): remove leading and trailing
whitespace. -/
def pyStrip (s : String) : String :=
  String.mk
    ((((s.data.dropWhile isPySpace).reverse).dropWhile isPySpace).reverse)

/-- Model of Python str.split() with no separator argument: split on
runs of whitespace, discarding empty fields. -/
def pySplit (s : String) : List String :=
  ((s.data.splitOnP isPySpace).filter (fun w => !w.isEmpty)).map String.mk

/-- Model of Python str.replace(".", ""): remove every period. -/
def pyReplaceDot (s : String) : String :=
  String.mk (s.data.filter (fun c => c != '.'))

/-- Model of Python str.replace("&", "and"). -/
def pyReplaceAmp (s : String) : String :=
  String.mk (s.data.flatMap (fun c => if c = '&' then ['a', 'n', 'd'] else [c]))

/-- Model of Python str.count for a nonempty pattern: the number of
non-overlapping occurrences, scanning left to right.  The fuel
argument is only a structural-recursion device: every step consumes at
least one character, so fuel equal to the text length is never
exhausted. -/
def countOccAux (needle : List Char) : Nat → List Char → Nat
  | 0, _ => 0
  | _, [] => 0
  | fuel + 1, c :: rest =>
    if needle.isPrefixOf (c :: rest) then
      1 + countOccAux needle fuel (rest.drop (needle.length - 1))
    else
      countOccAux needle fuel rest

/-- Model of Python str.count (title.count(k) in the source); the
degenerate empty pattern counts len+1 as in Python. -/
def pyCount (s sub : String) : Nat :=
  if sub.data.isEmpty then s.data.length + 1
  else countOccAux sub.data s.data.length s.data

/-! ## Keyword cleaning (clean_keywords, generator.py lines 156-163) -/

/-- Embedding of clean_keywords: for each keyword drop periods, expand
ampersands to "and", strip the remaining non-alphanumeric,
non-whitespace characters, trim, and keep the cleaned phrase exactly
when at least one of its whitespace-separated tokens has length at
least 3. -/
def clean_keywords (keywords : List String) : List String :=
  keywords.filterMap (fun kw =>
    let kw1 := pyReplaceAmp (pyReplaceDot kw)
    let cleaned_kw := pyStrip (stripNonAlnumWs kw1)
    if (pySplit cleaned_kw).any (fun w => 3 ≤ w.length) then
      some cleaned_kw
    else
      none)

/-- Embedding of the per-day company-name cleaning (generator.py lines
85-86): strip non-alphanumeric characters, trim, then keep only tokens
of length at least 3 and re-join them with single spaces. -/
def cleaned_company_name (company_name : String) : String :=
  String.intercalate " "
    ((pySplit (pyStrip (stripNonAlnumWs company_name))).filter
      (fun w => 3 ≤ w.length))

/-! ## Article records and the relevance filters
(generator.py lines 45-72, 116-126) -/

/-- One decoded search hit.  Each field models the corresponding
optional key of the article dictionary; `none` is an absent key. -/
structure Article where
  title : Option String
  seendoc : Option String
  snippet : Option String
  language : Option String
deriving DecidableEq

/-- The module-level impact keyword list (generator.py lines 49-54). -/
def impact_keywords : List String :=
  ["earnings", "profit", "loss", "revenue", "guidance", "dividend",
   "ipo", "lawsuit", "merger", "acquisition", "partnership",
   "regulation", "fine", "recall", "data breach",
   "analyst upgrade", "analyst downgrade", "stock buyback"]

/-- The module-level finance keyword list (generator.py lines 56-60). -/
def finance_keywords : List String :=
  ["finance", "market", "shares", "investment", "stock", "economy",
   "ipo", "trading", "fund", "earnings", "revenue", "profit",
   "dividend", "valuation", "forecast", "guidance"]

/-- Embedding of is_stock_relevant (generator.py lines 62-68): the
title (or empty), the first truthy of seendoc/snippet (or empty), both
lowercased and joined with one space, must contain some company
keyword, and additionally some impact keyword or the literal
substrings "stock" or "shares". -/
def is_stock_relevant (company_keywords : List String) (article : Article) :
    Bool :=
  let title := pyLower (pyOrStr article.title "")
  let summary := pyLower (pyOrStr article.seendoc (pyOrStr article.snippet ""))
  let text := title ++ " " ++ summary
  if !(company_keywords.any (fun kw => strContains text (pyLower kw))) then
    false
  else
    (impact_keywords.any (fun kw => strContains text (pyLower kw)))
      || strContains text "stock" || strContains text "shares"

/-- Embedding of the fallback relevance test (generator.py lines
119-123): company-keyword containment over the lowercased
concatenation of title and snippet only (seendoc is not consulted
here, unlike in is_stock_relevant). -/
def fallback_relevant (company_keywords : List String) (a : Article) : Bool :=
  company_keywords.any (fun kw =>
    strContains (pyLower (a.title.getD "" ++ " " ++ pyOrStr a.snippet ""))
      (pyLower kw))

/-- Embedding of score_article (generator.py lines 70-72): the sum
over the finance keywords of the number of occurrences in the
lowercased title. -/
def score_article (article : Article) : Nat :=
  let title := pyLower (article.title.getD "")
  (finance_keywords.map (fun k => pyCount title (pyLower k))).sum

/-- Embedding of the language filter (generator.py line 116): keep
articles whose language tag lowercases to "en" or "english". -/
def eng_filter (articles : List Article) : List Article :=
  articles.filter (fun a =>
    let l := pyLower (a.language.getD "")
    l = "en" || l = "english")

/-- Embedding of the two-tier relevance selection (generator.py lines
117-123): the primary filter, replaced by the fallback filter exactly
when the primary filter keeps nothing. -/
def relevant_articles (company_keywords : List String)
    (eng_articles : List Article) : List Article :=
  let rel := eng_articles.filter (is_stock_relevant company_keywords)
  if rel.isEmpty then eng_articles.filter (fallback_relevant company_keywords)
  else rel

/-- Embedding of the Python sorted(..., key=score_article,
reverse=True): a stable descending insertion sort, realised with
Mathlib's insertionSort under the total preorder comparing scores
downwards. -/
def sortDescBy (f : Article → Nat) (l : List Article) : List Article :=
  l.insertionSort (fun a b => f b ≤ f a)

/-- Embedding of the selection step (generator.py line 124): stable
descending sort by score, then the first top_n articles. -/
def top_articles (top_n : Nat) (articles : List Article) : List Article :=
  (sortDescBy score_article articles).take top_n

/-- Embedding of the headline join (generator.py line 126). -/
def headlines_of (articles : List Article) : String :=
  String.intercalate " | " (articles.map (fun a => a.title.getD ""))

/-! ## JSON values and a model of Python json.loads

The response decoder of the active source (generator.py lines 109-113)
is response.json() guarded by a JSONDecodeError handler.  The parser
below models the json.loads grammar on the ASCII fragment exercised by
the program; numeric literals are modelled as integers, which covers
every body considered in this development. -/

/-- Structured JSON values. -/
inductive Json where
  | null
  | bool (b : Bool)
  | num (n : Int)
  | str (s : String)
  | arr (elements : List Json)
  | obj (fields : List (String × Json))

/-- JSON insignificant whitespace. -/
def isJsonWs (c : Char) : Bool :=
  c = ' ' || c = '\t' || c = '\n' || c = '\x0d'

/-- Skip insignificant whitespace. -/
def skipWs (s : List Char) : List Char := s.dropWhile isJsonWs

/-- Translation of the JSON string escape codes. -/
def escChar (c : Char) : Option Char :=
  if c = '"' then some '"'
  else if c = '\\' then some '\\'
  else if c = '/' then some '/'
  else if c = 'n' then some '\n'
  else if c = 't' then some '\t'
  else if c = 'r' then some '\x0d'
  else if c = 'b' then some '\x08'
  else if c = 'f' then some '\x0c'
  else none

/-- Parse the body of a JSON string after the opening quote, returning
the contents and the characters after the closing quote. -/
def parseStrAux : List Char → Option (List Char × List Char)
  | [] => none
  | '"' :: rest => some ([], rest)
  | '\\' :: rest =>
    match rest with
    | [] => none
    | c :: rest2 =>
      match escChar c with
      | none => none
      | some e =>
        match parseStrAux rest2 with
        | none => none
        | some (cs, r) => some (e :: cs, r)
  | c :: rest =>
    match parseStrAux rest with
    | none => none
    | some (cs, r) => some (c :: cs, r)

/-- Expect a literal character sequence. -/
def parseLit (lit : List Char) (s : List Char) : Option (List Char) :=
  if lit.isPrefixOf s then some (s.drop lit.length) else none

/-- Decimal digits to a natural number. -/
def digitsToNat (ds : List Char) : Nat :=
  ds.foldl (fun acc c => 10 * acc + (c.toNat - 48)) 0

/-- Parse an optionally signed integer literal. -/
def parseNum (s : List Char) : Option (Int × List Char) :=
  let p := match s with
    | '-' :: t => (true, t)
    | _ => (false, s)
  let ds := p.2.takeWhile Char.isDigit
  if ds.isEmpty then none
  else
    let n : Int := Int.ofNat (digitsToNat ds)
    some (if p.1 then -n else n, p.2.drop ds.length)

mutual

/-- Parse one JSON value.  The fuel argument only drives structural
recursion: twice the input length plus a constant is always
sufficient, since at least one character is consumed for every two
fuel steps. -/
def parseVal : Nat → List Char → Option (Json × List Char)
  | 0, _ => none
  | fuel + 1, s =>
    match skipWs s with
    | [] => none
    | c :: rest =>
      if c = '"' then
        match parseStrAux rest with
        | none => none
        | some (cs, r) => some (Json.str (String.mk cs), r)
      else if c = '[' then
        match skipWs rest with
        | ']' :: r => some (Json.arr [], r)
        | s2 =>
          match parseArrRest fuel s2 with
          | none => none
          | some (vs, r) => some (Json.arr vs, r)
      else if c = '\x7b' then
        match skipWs rest with
        | '\x7d' :: r => some (Json.obj [], r)
        | s2 =>
          match parseObjRest fuel s2 with
          | none => none
          | some (fs, r) => some (Json.obj fs, r)
      else if c = 't' then
        match parseLit ['r', 'u', 'e'] rest with
        | none => none
        | some r => some (Json.bool true, r)
      else if c = 'f' then
        match parseLit ['a', 'l', 's', 'e'] rest with
        | none => none
        | some r => some (Json.bool false, r)
      else if c = 'n' then
        match parseLit ['u', 'l', 'l'] rest with
        | none => none
        | some r => some (Json.null, r)
      else
        match parseNum (c :: rest) with
        | none => none
        | some (n, r) => some (Json.num n, r)

/-- Parse the elements of a nonempty array after the opening bracket. -/
def parseArrRest : Nat → List Char → Option (List Json × List Char)
  | 0, _ => none
  | fuel + 1, s =>
    match parseVal fuel s with
    | none => none
    | some (v, r) =>
      match skipWs r with
      | ',' :: r2 =>
        match parseArrRest fuel r2 with
        | none => none
        | some (vs, r3) => some (v :: vs, r3)
      | ']' :: r2 => some ([v], r2)
      | _ => none

/-- Parse the members of a nonempty object after the opening brace. -/
def parseObjRest : Nat → List Char → Option (List (String × Json) × List Char)
  | 0, _ => none
  | fuel + 1, s =>
    match skipWs s with
    | '"' :: rest =>
      match parseStrAux rest with
      | none => none
      | some (key, r) =>
        match skipWs r with
        | ':' :: r2 =>
          match parseVal fuel r2 with
          | none => none
          | some (v, r3) =>
            match skipWs r3 with
            | ',' :: r4 =>
              match parseObjRest fuel r4 with
              | none => none
              | some (fs, r5) => some ((String.mk key, v) :: fs, r5)
            | '\x7d' :: r4 => some ([(String.mk key, v)], r4)
            | _ => none
        | _ => none
    | _ => none

end

/-- Model of Python json.loads: parse one value and require nothing
but whitespace to remain. -/
def pyJsonLoads (text : String) : Option Json :=
  match parseVal (2 * text.data.length + 4) text.data with
  | none => none
  | some (j, r) => if (skipWs r).isEmpty then some j else none

/-- Model of json.loads with the raised fault made explicit: a body
that fails to parse raises JSONDecodeError. -/
def pyJsonLoadsE (text : String) : Except String Json :=
  match pyJsonLoads text with
  | some j => Except.ok j
  | none => Except.error "JSONDecodeError"

/-- Embedding of the active decoder (generator.py lines 109-113):
response.json() inside a try block whose except clause catches exactly
JSONDecodeError; the caught case becomes the undecodable signal. -/
def decode_response (text : String) : Option Json :=
  match pyJsonLoadsE text with
  | Except.ok j => some j
  | Except.error _ => none

/-- Minimal model of the unicode-escape reinterpretation
(bytes.decode("unicode_escape")): resolve backslash escape sequences,
keeping unrecognised ones verbatim. -/
def unicodeEscapeAux : List Char → List Char
  | [] => []
  | '\\' :: rest =>
    match rest with
    | [] => ['\\']
    | c :: rest2 =>
      match escChar c with
      | some e => e :: unicodeEscapeAux rest2
      | none => '\\' :: c :: unicodeEscapeAux rest2
  | c :: rest => c :: unicodeEscapeAux rest

/-- Decoder following the specification text (spec section 4.2),
stated only for comparison with decode_response: trim, reject bodies
not starting with a brace or bracket, strict parse, then a
unicode-escape repair, then a trailing-comma trim plus
brace/bracket-balancing repair. -/
def specRepairDecode (text : String) : Option Json :=
  let t := pyStrip text
  if !(t.data.head? == some '\x7b' || t.data.head? == some '[') then none
  else
    match pyJsonLoads t with
    | some j => some j
    | none =>
      match pyJsonLoads (String.mk (unicodeEscapeAux t.data)) with
      | some j => some j
      | none =>
        let c1 := if t.data.getLast? == some ',' then t.data.dropLast else t.data
        let c2 := c1 ++ List.replicate (c1.count '\x7b' - c1.count '\x7d') '\x7d'
        let c3 := c2 ++ List.replicate (c2.count '[' - c2.count ']') ']'
        pyJsonLoads (String.mk c3)

/-! ## The per-day retry loop and the date-range run
(generator.py lines 74-145)

Requests return either a network-level fault (requests.RequestException)
or a textual body; a day's successive request outcomes are supplied as
an explicit list, one entry per attempted request, abstracting the
external provider.  The loop is the source's
`while not success and retries > 0` with retries initialised to 3. -/

/-- One output row (generator.py lines 127-132).  Dates are modelled
as day numbers. -/
structure Row where
  date : Nat
  headlines : String
  ticker : String
  company : String
deriving DecidableEq

/-- Outcome of one external request attempt. -/
inductive Resp where
  | netError
  | text (body : String)
deriving DecidableEq

/-- The provider's rate-limit marker phrase (generator.py line 103). -/
def rateLimitMarker : String := "Please limit requests"

/-- Result of running one day's retry loop.  done carries the optional
emitted row, the number of requests issued and the remaining retry
budget; outOfResponses means the loop was still running when the
supplied list of simulated responses was exhausted; crashed models an
exception that the loop does not catch (duck-typing faults on the
decoded structure). -/
inductive DayOutcome where
  | done (row : Option Row) (requests : Nat) (retriesLeft : Nat)
  | outOfResponses (requests : Nat) (retriesLeft : Nat)
  | crashed (requests : Nat)
deriving DecidableEq

/-- Model of data.get("articles", []) (generator.py line 115): absent
key defaults to the empty list; a non-object value models the
AttributeError the source would raise, a non-array value the faults
raised when the loop iterates it. -/
def getArticles : Json → Option (List Json)
  | Json.obj fields =>
    match fields.lookup "articles" with
    | none => some []
    | some (Json.arr l) => some l
    | some _ => none
  | _ => none

/-- Read an optional string field of an article object; a present
non-string value models the faults raised downstream by the source's
string operations on it. -/
def strField (fields : List (String × Json)) (key : String) :
    Option (Option String) :=
  match fields.lookup key with
  | none => some none
  | some (Json.str s) => some (some s)
  | some _ => none

/-- Convert a decoded article entry into an Article record; a
non-object entry models the AttributeError raised by a.get. -/
def toArticle : Json → Option Article
  | Json.obj fields => do
    let title ← strField fields "title"
    let seendoc ← strField fields "seendoc"
    let snippet ← strField fields "snippet"
    let language ← strField fields "language"
    pure (Article.mk title seendoc snippet language)
  | _ => none

/-- Embedding of the per-day filtering, ranking and row construction
(generator.py lines 116-132): language filter, two-tier relevance
filter, stable descending sort by score, truncation to top_n, and a
row exactly when the selection is nonempty. -/
def rowForDay (company_keywords : List String) (ticker company : String)
    (top_n : Nat) (date : Nat) (articles : List Article) : Option Row :=
  let eng := eng_filter articles
  let rel := relevant_articles company_keywords eng
  let top := top_articles top_n rel
  if top.isEmpty then none
  else some (Row.mk date (headlines_of top) ticker company)

/-- Embedding of the day-window retry loop (generator.py lines
98-137).  The loop runs while no success and retries > 0; each
iteration issues one request.  A rate-limited body decrements the
budget and retries; a network fault retries without touching the
budget (the active source's except clause does not decrement); an
undecodable body abandons the day; a decoded body runs the filter
pipeline and finishes the day. -/
def dayLoop (company_keywords : List String) (ticker company : String)
    (top_n : Nat) (date : Nat) :
    Nat → Nat → List Resp → DayOutcome
  | 0, requests, _ => DayOutcome.done none requests 0
  | retries + 1, requests, [] => DayOutcome.outOfResponses requests (retries + 1)
  | retries + 1, requests, Resp.netError :: rest =>
    dayLoop company_keywords ticker company top_n date
      (retries + 1) (requests + 1) rest
  | retries + 1, requests, Resp.text body :: rest =>
    if strContains body rateLimitMarker then
      dayLoop company_keywords ticker company top_n date
        retries (requests + 1) rest
    else
      match decode_response body with
      | none => DayOutcome.done none (requests + 1) (retries + 1)
      | some data =>
        match getArticles data with
        | none => DayOutcome.crashed (requests + 1)
        | some arts =>
          match arts.mapM toArticle with
          | none => DayOutcome.crashed (requests + 1)
          | some articles =>
            DayOutcome.done
              (rowForDay company_keywords ticker company top_n date articles)
              (requests + 1) (retries + 1)

/-- The date-range loop (generator.py lines 81-141), iterating over
the remaining number of days.  The response oracle maps a day and the
issued query string to that day's successive request outcomes.  An
error result models a run aborted by an uncaught exception or, as a
modelling artifact, a day whose simulated response list ran dry. -/
def fetchRunAux (company_keywords : List String) (ticker company : String)
    (top_n : Nat) (resps : Nat → String → List Resp) :
    Nat → Nat → Except Unit (List Row)
  | _, 0 => Except.ok []
  | day, n + 1 =>
    match dayLoop company_keywords ticker company top_n day 3 0
        (resps day (cleaned_company_name company)) with
    | DayOutcome.done row _ _ =>
      match fetchRunAux company_keywords ticker company top_n resps
          (day + 1) n with
      | Except.ok rest =>
        Except.ok
          (match row with
           | some r => r :: rest
           | none => rest)
      | Except.error e => Except.error e
    | _ => Except.error ()

/-- Embedding of fetch_gdelt_finance_news (generator.py lines 45-145)
over the response oracle: an absent keyword list defaults to
[ticker, company_name], and the days start_day..end_day are processed
in order, each through the retry loop and filter pipeline. -/
def fetch_gdelt_finance_news (ticker company_name : String)
    (start_day end_day : Nat) (company_keywords : Option (List String))
    (top_n : Nat) (resps : Nat → String → List Resp) :
    Except Unit (List Row) :=
  let kws := company_keywords.getD [ticker, company_name]
  fetchRunAux kws ticker company_name top_n resps start_day
    (end_day + 1 - start_day)

/-! ## Indicator calculator (generator.py lines 34-36)

The derived columns of fetch_stock_data: Daily_Return is
pandas Series.pct_change on the adjusted close, EMA_7 and EMA_21 are
Series.ewm(span=N, adjust=False).mean().  Prices are modelled as
rationals. -/

/-- Embedding of Series.pct_change (generator.py line 34):
daily_return is null at index 0 and price[t]/price[t-1] - 1
afterwards. -/
def pct_change (prices : List ℚ) : List (Option ℚ) :=
  match prices with
  | [] => []
  | p :: rest =>
    none :: List.zipWith (fun prev cur => some (cur / prev - 1)) (p :: rest) rest

/-- Recursive exponential weighting: each output is
(1 - alpha) * previous + alpha * current. -/
def ewm_aux (alpha : ℚ) : ℚ → List ℚ → List ℚ
  | _, [] => []
  | prev, c :: cs =>
    let e := (1 - alpha) * prev + alpha * c
    e :: ewm_aux alpha e cs

/-- Embedding of Series.ewm(span, adjust=False).mean() (generator.py
lines 35-36): seeded with the first observed price, then the recursion
of ewm_aux with smoothing factor 2/(span+1). -/
def ewm_mean (span : Nat) (prices : List ℚ) : List ℚ :=
  match prices with
  | [] => []
  | p :: rest => p :: ewm_aux ((2 : ℚ) / ((span : ℚ) + 1)) p rest

/-- Concrete well-formed response body used by the evaluated runs: a
JSON object with one English article whose title contains a company
keyword, an impact keyword and a finance keyword. -/
def goodBodyEx : String :=
  "\x7b\"articles\":[\x7b\"title\":\"Acme earnings stock\",\"language\":\"en\"\x7d]\x7d"

/-- Concrete well-formed response body with an empty article list. -/
def emptyBodyEx : String := "\x7b\"articles\":[]\x7d"

/-- Whether a simulated response is a rate-limited body. -/
def isRateLimited : Resp → Bool
  | Resp.netError => false
  | Resp.text body => strContains body rateLimitMarker

/-! ## Helper lemmas -/

/-- Python `x or ""` and dict-get with default "" agree: an empty
present string and an absent value both give the empty string. -/
lemma pyOrStr_empty (x : Option String) : pyOrStr x "" = x.getD "" := by
  cases x with
  | none => rfl
  | some s =>
    by_cases h : s = "" <;> simp [pyOrStr, h]

/-- Lowercasing distributes over string append. -/
lemma pyLower_append (x y : String) :
    pyLower (x ++ y) = pyLower x ++ pyLower y := by
  cases x with
  | mk xd =>
    cases y with
    | mk yd =>
      show String.mk ((xd ++ yd).map Char.toLower) =
        String.mk (xd.map Char.toLower) ++ String.mk (yd.map Char.toLower)
      rw [List.map_append]
      rfl

/-- Every character of a stripped string is a character of the
original. -/
lemma mem_pyStrip {c : Char} {s : String} (h : c ∈ (pyStrip s).data) :
    c ∈ s.data := by
  simp only [pyStrip, List.mem_reverse] at h
  have h2 : c ∈ (s.data.dropWhile isPySpace).reverse :=
    (List.dropWhile_sublist _).subset h
  rw [List.mem_reverse] at h2
  exact (List.dropWhile_sublist _).subset h2

/-- Characters surviving stripNonAlnumWs are alphanumeric or
whitespace. -/
lemma mem_stripNonAlnumWs {c : Char} {s : String}
    (h : c ∈ (stripNonAlnumWs s).data) : c.isAlphanum || isPySpace c := by
  simp only [stripNonAlnumWs, List.mem_filter] at h
  exact h.2

/-! ## Claim C5 — keyword-list normalizer -/

/-- C5 counterexample: the claim, as stated, is false.  For the input
list ["ab cdef"] the keyword normalizer keeps the phrase "ab cdef"
unchanged, which contains the token "ab" of length 2 (tokens shorter
than 3 characters are not discarded from the cleaned phrase), and for
["xy  cdef"] the kept phrase contains a double space (internal
whitespace is not collapsed to single spaces). -/
theorem C5_counterexample :
    clean_keywords ["ab cdef"] = ["ab cdef"] ∧
    "ab" ∈ pySplit "ab cdef" ∧ ("ab" : String).length < 3 ∧
    clean_keywords ["xy  cdef"] = ["xy  cdef"] ∧
    strContains "xy  cdef" "  " = true := by
  refine ⟨by decide, by decide, by decide, by decide, by decide⟩

/-- C5 amended: for every input list, every phrase kept by the keyword
normalizer consists only of letters, digits and whitespace, and has at
least one whitespace-separated token of length at least 3; short
tokens inside a kept phrase are retained and whitespace is not
collapsed. -/
theorem C5_normalizer_amended (keywords : List String) :
    ∀ p ∈ clean_keywords keywords,
      (p.data.all (fun c => c.isAlphanum || isPySpace c) = true) ∧
      ((pySplit p).any (fun w => 3 ≤ w.length) = true) := by
  intro p hp
  simp only [clean_keywords, List.mem_filterMap] at hp
  obtain ⟨kw, _, hf⟩ := hp
  by_cases hg :
      (pySplit (pyStrip (stripNonAlnumWs (pyReplaceAmp (pyReplaceDot kw))))).any
        (fun w => 3 ≤ w.length)
  · rw [if_pos hg] at hf
    obtain rfl := Option.some.inj hf
    refine ⟨?_, hg⟩
    rw [List.all_eq_true]
    intro c hc
    exact mem_stripNonAlnumWs (mem_pyStrip hc)
  · rw [if_neg hg] at hf
    exact absurd hf (by simp)

/-- C5 witness: the amended theorem applied to the concrete keyword
list ["Visa Inc"], whose cleaned phrase "Visa Inc" is kept. -/
theorem C5_normalizer_amended_witness :
    ("Visa Inc" ∈ clean_keywords ["Visa Inc"]) ∧
    (("Visa Inc" : String).data.all (fun c => c.isAlphanum || isPySpace c)
      = true) ∧
    ((pySplit "Visa Inc").any (fun w => 3 ≤ w.length) = true) := by
  refine ⟨by decide, (C5_normalizer_amended ["Visa Inc"] "Visa Inc" (by decide)).1,
    (C5_normalizer_amended ["Visa Inc"] "Visa Inc" (by decide)).2⟩

/-! ## Claim C3 — fallback filter versus primary filter -/

/-- C3 counterexample: the claim, as stated, is false.  An
English-language article whose company keyword occurs only in its
seendoc field passes the primary filter (which reads seendoc or
snippet) together with an impact keyword, yet fails the fallback
filter (which reads only title and snippet). -/
theorem C3_counterexample :
    (Article.mk (some "") (some "acme earnings") none (some "en")) ∈
      eng_filter [Article.mk (some "") (some "acme earnings") none (some "en")] ∧
    is_stock_relevant ["acme"]
      (Article.mk (some "") (some "acme earnings") none (some "en")) = true ∧
    fallback_relevant ["acme"]
      (Article.mk (some "") (some "acme earnings") none (some "en")) = false := by
  refine ⟨by decide, by decide, by decide⟩

/-- With no seendoc field, the primary filter's searched text and the
fallback filter's searched text coincide. -/
lemma primary_fallback_text_eq (a : Article) (h : a.seendoc = none) :
    pyLower (pyOrStr a.title "") ++ " " ++
        pyLower (pyOrStr a.seendoc (pyOrStr a.snippet "")) =
      pyLower (a.title.getD "" ++ " " ++ pyOrStr a.snippet "") := by
  rw [h, pyLower_append, pyLower_append, pyOrStr_empty]
  show _ = pyLower (a.title.getD "") ++ " " ++ pyLower (pyOrStr a.snippet "")
  rfl

/-- C3 amended: for every article without a seendoc field (in
particular every article whose optional summary is its snippet), the
fallback filter is non-stricter than the primary filter: passing the
primary relevance filter implies passing the fallback
company-keyword-containment filter. -/
theorem C3_fallback_nonstricter (company_keywords : List String) (a : Article)
    (hseen : a.seendoc = none)
    (hrel : is_stock_relevant company_keywords a = true) :
    fallback_relevant company_keywords a = true := by
  unfold is_stock_relevant at hrel
  by_cases hc :
      company_keywords.any (fun kw =>
        strContains
          (pyLower (pyOrStr a.title "") ++ " " ++
            pyLower (pyOrStr a.seendoc (pyOrStr a.snippet "")))
          (pyLower kw)) = true
  · unfold fallback_relevant
    rw [← primary_fallback_text_eq a hseen]
    exact hc
  · exfalso
    simp only [Bool.not_eq_true] at hc
    dsimp only at hrel
    rw [hc] at hrel
    simp at hrel

/-- C3 witness: the amended theorem applied to a concrete article with
no seendoc field that passes the primary filter. -/
theorem C3_fallback_nonstricter_witness :
    (Article.mk (some "acme earnings") none none (some "en")).seendoc = none ∧
    is_stock_relevant ["acme"]
      (Article.mk (some "acme earnings") none none (some "en")) = true ∧
    fallback_relevant ["acme"]
      (Article.mk (some "acme earnings") none none (some "en")) = true :=
  ⟨rfl, by decide,
    C3_fallback_nonstricter ["acme"]
      (Article.mk (some "acme earnings") none none (some "en")) rfl (by decide)⟩

/-! ## Claim C2 — response decoder -/

/-- C2 counterexample: the claim, as stated, is false on the active
code.  The truncated body (in braces) "a":1 is repaired to a
structured value by the specified trailing-comma/balancing pass, yet
the decoder classifies it undecodable; and the body "3", which does
not start with a brace or bracket, is parsed to a structured value
rather than classified undecodable without parsing. -/
theorem C2_counterexample :
    decode_response "\x7b\"a\":1" = none ∧
    specRepairDecode "\x7b\"a\":1" = some (Json.obj [("a", Json.num 1)]) ∧
    decode_response "3" = some (Json.num 3) ∧
    specRepairDecode "3" = none :=
  ⟨rfl, rfl, rfl, rfl⟩

/-- C2 amended: for every response body the decoder performs only the
strict parse — it returns the parsed structure exactly when json.loads
succeeds and the explicit undecodable signal exactly when json.loads
raises, and never lets a fault escape; no repair pass and no
brace/bracket prefix check is attempted. -/
theorem C2_strict_parse_only (text : String) :
    (∀ j, decode_response text = some j ↔ pyJsonLoadsE text = Except.ok j) ∧
    (decode_response text = none ↔
      ∃ e, pyJsonLoadsE text = Except.error e) := by
  unfold decode_response
  cases h : pyJsonLoadsE text with
  | ok j => simp
  | error e => simp

/-! ## Claim C6 — scoring, stable descending selection -/

/-- Inserting into a list, every passed-over element has a strictly
greater score, so the per-score sublists are unchanged up to placing
the inserted element first among its own score class. -/
lemma filter_orderedInsert (f : Article → Nat) (s : Nat) (a : Article)
    (l : List Article) :
    (List.orderedInsert (fun x y => f y ≤ f x) a l).filter
        (fun x => f x == s) =
      if f a == s then a :: l.filter (fun x => f x == s)
      else l.filter (fun x => f x == s) := by
  induction l with
  | nil =>
    simp only [List.orderedInsert, List.filter_cons, List.filter_nil]
  | cons b t ih =>
    simp only [List.orderedInsert]
    by_cases hab : f b ≤ f a
    · rw [if_pos hab, List.filter_cons]
    · rw [if_neg hab, List.filter_cons, ih]
      by_cases has : (f a == s) = true
      · have h1 : f a = s := by simpa using has
        have hbs : (f b == s) = false := by
          have h2 : f a < f b := Nat.lt_of_not_le hab
          simp only [beq_eq_false_iff_ne, ne_eq]
          omega
        simp [has, hbs, List.filter_cons]
      · simp [has, List.filter_cons]

/-- Stability of the descending sort: for every score value, the
sublist of output articles with that score equals the sublist of input
articles with that score, in the original order. -/
lemma filter_sortDescBy (f : Article → Nat) (s : Nat) (l : List Article) :
    (l.insertionSort (fun a b => f b ≤ f a)).filter (fun x => f x == s) =
      l.filter (fun x => f x == s) := by
  induction l with
  | nil => rfl
  | cons a t ih =>
    simp only [List.insertionSort]
    rw [filter_orderedInsert, ih]
    by_cases has : (f a == s) = true <;> simp [has, List.filter_cons]

/-- C6: the selection step sorts the surviving articles in descending
order of their finance-keyword title score with the original relative
order preserved among equal scores (the per-score sublists of the
sorted list equal those of the input, and the sorted list is a
permutation of the input), returns at most top_n of them, and the
emitted headlines string joins the selected titles with " | " in
selection order. -/
theorem C6_selection_ordered (articles : List Article) (top_n : Nat) :
    (top_articles top_n articles).length ≤ top_n ∧
    List.Sorted (fun a b => score_article b ≤ score_article a)
      (top_articles top_n articles) ∧
    (∀ s : Nat,
      (sortDescBy score_article articles).filter
          (fun a => score_article a == s) =
        articles.filter (fun a => score_article a == s)) ∧
    List.Perm (sortDescBy score_article articles) articles ∧
    headlines_of (top_articles top_n articles) =
      String.intercalate " | "
        ((top_articles top_n articles).map (fun a => a.title.getD "")) := by
  haveI : IsTotal Article (fun a b => score_article b ≤ score_article a) :=
    ⟨fun a b => Nat.le_total _ _⟩
  haveI : IsTrans Article (fun a b => score_article b ≤ score_article a) :=
    ⟨fun _ _ _ hab hbc => Nat.le_trans hbc hab⟩
  refine ⟨List.length_take_le top_n _, ?_, ?_, ?_, rfl⟩
  · exact
      (List.sorted_insertionSort (fun a b => score_article b ≤ score_article a)
        articles).sublist (List.take_sublist top_n _)
  · intro s
    exact filter_sortDescBy score_article s articles
  · exact List.perm_insertionSort (fun a b => score_article b ≤ score_article a)
      articles

/-! ## Claims C4 and C1 — retry loop behaviour -/

/-- Under rate-limited responses only, each iteration issues one
request and decrements the budget, so a budget of k is spent after
exactly k requests and the day finishes with no row. -/
lemma dayLoop_rateLimited_exhausts (kws : List String) (ticker company : String)
    (top_n date : Nat) :
    ∀ (k req : Nat) (resps : List Resp),
      (∀ r ∈ resps, isRateLimited r = true) → k ≤ resps.length →
      dayLoop kws ticker company top_n date k req resps =
        DayOutcome.done none (req + k) 0 := by
  intro k
  induction k with
  | zero =>
    intro req resps _ _
    cases resps <;> simp [dayLoop]
  | succ k ih =>
    intro req resps hall hlen
    cases resps with
    | nil => simp at hlen
    | cons r rest =>
      cases r with
      | netError =>
        have h := hall Resp.netError (List.mem_cons_self _ _)
        simp [isRateLimited] at h
      | text body =>
        have h := hall (Resp.text body) (List.mem_cons_self _ _)
        simp only [isRateLimited] at h
        rw [dayLoop, if_pos h]
        rw [ih (req + 1) rest
          (fun r hr => hall r (List.mem_cons_of_mem _ hr))
          (by simpa using Nat.le_of_succ_le_succ hlen)]
        congr 1
        omega

/-- C4: for a day whose responses all carry the provider's rate-limit
marker phrase and offer at least the budget of 3 of them, the retry
loop spends the whole per-day budget (initial value 3), issuing
exactly 3 requests, and then abandons the day with no row. -/
theorem C4_rate_limit_exhaustion (kws : List String) (ticker company : String)
    (top_n date : Nat) (resps : List Resp)
    (hall : ∀ r ∈ resps, isRateLimited r = true) (hlen : 3 ≤ resps.length) :
    dayLoop kws ticker company top_n date 3 0 resps =
      DayOutcome.done none 3 0 :=
  dayLoop_rateLimited_exhausts kws ticker company top_n date 3 0 resps hall hlen

/-- C4 witness: the rate-limited body repeated 4 times; the day is
abandoned with no row after 3 requests, the budget at 0. -/
theorem C4_rate_limit_exhaustion_witness :
    (∀ r ∈ List.replicate 4 (Resp.text rateLimitMarker),
      isRateLimited r = true) ∧
    3 ≤ (List.replicate 4 (Resp.text rateLimitMarker)).length ∧
    dayLoop ["acme"] "ACME" "Acme Corp." 5 0 3 0
        (List.replicate 4 (Resp.text rateLimitMarker)) =
      DayOutcome.done none 3 0 :=
  ⟨by decide, by decide,
    C4_rate_limit_exhaustion ["acme"] "ACME" "Acme Corp." 5 0
      (List.replicate 4 (Resp.text rateLimitMarker)) (by decide) (by decide)⟩

/-- Under network faults only, the loop re-issues requests without
ever touching the retry budget. -/
lemma dayLoop_netError_no_decrement (kws : List String)
    (ticker company : String) (top_n date : Nat) :
    ∀ (n req : Nat),
      dayLoop kws ticker company top_n date 3 req
          (List.replicate n Resp.netError) =
        DayOutcome.outOfResponses (req + n) 3 := by
  intro n
  induction n with
  | zero => intro req; simp [dayLoop]
  | succ n ih =>
    intro req
    rw [List.replicate_succ, dayLoop, ih (req + 1)]
    congr 1
    omega

/-- C1 (evaluation of the code at the failing inputs): the active
except clause for network faults does not decrement the retry budget.
After n consecutive network faults the loop has issued n requests with
the budget still at its initial value 3 and is still running — for
n = 4 this already exceeds the claimed bound of 3 attempts, and the
loop does not terminate under persistently failing requests.  For a
single transient network fault followed by a successful response, a
row is emitted after 2 requests with the budget still 3: zero
decrements, not the claimed one. -/
theorem C1_network_fault_budget :
    (∀ (kws : List String) (ticker company : String) (top_n date n : Nat),
      dayLoop kws ticker company top_n date 3 0
          (List.replicate n Resp.netError) =
        DayOutcome.outOfResponses n 3) ∧
    dayLoop ["acme"] "ACME" "Acme Corp." 5 0 3 0
        [Resp.netError, Resp.text goodBodyEx] =
      DayOutcome.done
        (some (Row.mk 0 "Acme earnings stock" "ACME" "Acme Corp.")) 2 3 := by
  constructor
  · intro kws ticker company top_n date n
    have h := dayLoop_netError_no_decrement kws ticker company top_n date n 0
    simpa using h
  · decide

/-! ## Claims C7, C9 and C10 — run-level invariants -/

/-- A row built by rowForDay carries the given date, ticker and
company, and certifies a nonempty set of surviving articles. -/
lemma rowForDay_fields {kws : List String} {t c : String} {n d : Nat}
    {arts : List Article} {row : Row}
    (h : rowForDay kws t c n d arts = some row) :
    row.date = d ∧ row.ticker = t ∧ row.company = c ∧
      relevant_articles kws (eng_filter arts) ≠ [] := by
  unfold rowForDay at h
  by_cases he : (top_articles n (relevant_articles kws (eng_filter arts))).isEmpty
  · rw [if_pos he] at h
    exact absurd h (by simp)
  · rw [if_neg he] at h
    obtain rfl := Option.some.inj h
    refine ⟨rfl, rfl, rfl, ?_⟩
    intro hrel
    apply he
    rw [hrel]
    simp [top_articles, sortDescBy]

/-- Inverting the retry loop: a day that finishes with a row obtained
that row from rowForDay on the article list decoded from one of the
day's actual response bodies — a non-rate-limited body occurring in
the supplied response list whose decode, article extraction and
record conversion all succeed. -/
lemma dayLoop_done_some {kws : List String} {t c : String} {n d : Nat} :
    ∀ (resps : List Resp) (retries req reqs rl : Nat) (row : Row),
      dayLoop kws t c n d retries req resps =
        DayOutcome.done (some row) reqs rl →
      ∃ body, Resp.text body ∈ resps ∧
        strContains body rateLimitMarker = false ∧
        ∃ data arts articles,
          decode_response body = some data ∧
          getArticles data = some arts ∧
          arts.mapM toArticle = some articles ∧
          rowForDay kws t c n d articles = some row := by
  intro resps
  induction resps with
  | nil =>
    intro retries req reqs rl row h
    cases retries with
    | zero => simp [dayLoop] at h
    | succ k => simp [dayLoop] at h
  | cons r rest ih =>
    intro retries req reqs rl row h
    cases retries with
    | zero => simp [dayLoop] at h
    | succ k =>
      cases r with
      | netError =>
        rw [dayLoop] at h
        obtain ⟨body, hmem, hrest⟩ := ih _ _ _ _ _ h
        exact ⟨body, List.mem_cons_of_mem _ hmem, hrest⟩
      | text body0 =>
        rw [dayLoop] at h
        by_cases hb : strContains body0 rateLimitMarker = true
        · rw [if_pos hb] at h
          obtain ⟨body, hmem, hrest⟩ := ih _ _ _ _ _ h
          exact ⟨body, List.mem_cons_of_mem _ hmem, hrest⟩
        · rw [if_neg hb] at h
          cases hd : decode_response body0 with
          | none => simp only [hd] at h; simp at h
          | some data =>
            simp only [hd] at h
            cases ha : getArticles data with
            | none => simp only [ha] at h; simp at h
            | some arts =>
              simp only [ha] at h
              cases hm : arts.mapM toArticle with
              | none => simp only [hm] at h; simp at h
              | some articles =>
                simp only [hm, DayOutcome.done.injEq] at h
                exact ⟨body0, List.mem_cons_self _ _,
                  Bool.eq_false_iff.mpr hb, data, arts, articles,
                  hd, ha, hm, h.1⟩

/-- Invariants of the date-range loop: a successful run yields rows
with strictly increasing dates lying in the processed window, each row
carrying the verbatim ticker and company and produced by the filter
pipeline from the article list decoded from one of its own day's
actual response bodies, with a nonempty surviving-article set. -/
lemma fetchRunAux_invariants {kws : List String} {t c : String} {n : Nat}
    {resps : Nat → String → List Resp} :
    ∀ (count day : Nat) (rows : List Row),
      fetchRunAux kws t c n resps day count = Except.ok rows →
      List.Chain' (fun r1 r2 => r1.date < r2.date) rows ∧
      ∀ row ∈ rows, day ≤ row.date ∧ row.date < day + count ∧
        row.ticker = t ∧ row.company = c ∧
        ∃ body, Resp.text body ∈ resps row.date (cleaned_company_name c) ∧
          strContains body rateLimitMarker = false ∧
          ∃ data arts articles,
            decode_response body = some data ∧
            getArticles data = some arts ∧
            arts.mapM toArticle = some articles ∧
            rowForDay kws t c n row.date articles = some row ∧
            relevant_articles kws (eng_filter articles) ≠ [] := by
  intro count
  induction count with
  | zero =>
    intro day rows h
    simp only [fetchRunAux] at h
    obtain rfl := (Except.ok.inj h).symm
    exact ⟨List.chain'_nil, by simp⟩
  | succ n2 ih =>
    intro day rows h
    rw [fetchRunAux] at h
    cases hd : dayLoop kws t c n day 3 0 (resps day (cleaned_company_name c)) with
    | outOfResponses a b => rw [hd] at h; simp at h
    | crashed a => rw [hd] at h; simp at h
    | done row0 a b =>
      rw [hd] at h
      cases hrest : fetchRunAux kws t c n resps (day + 1) n2 with
      | error e => rw [hrest] at h; simp at h
      | ok rest =>
        rw [hrest] at h
        obtain ⟨hchain, hmem⟩ := ih (day + 1) rest hrest
        cases row0 with
        | none =>
          obtain rfl : rest = rows := by simpa using h
          refine ⟨hchain, ?_⟩
          intro row hr
          obtain ⟨h1, h2, h3, h4, h5⟩ := hmem row hr
          exact ⟨by omega, by omega, h3, h4, h5⟩
        | some r0 =>
          obtain rfl : r0 :: rest = rows := by simpa using h
          obtain ⟨body, hbodymem, hnotrl, data, arts, articles,
            hdec, hga, hmap, hrfd⟩ := dayLoop_done_some _ _ _ _ _ _ hd
          obtain ⟨hdate, hticker, hcompany, hrel⟩ := rowForDay_fields hrfd
          constructor
          · rw [List.chain'_cons']
            refine ⟨?_, hchain⟩
            intro b hb
            have hbmem : b ∈ rest := List.mem_of_mem_head? hb
            obtain ⟨h1, _, _, _, _⟩ := hmem b hbmem
            omega
          · intro row hr
            rcases List.mem_cons.mp hr with hr0 | hrr
            · subst hr0
              refine ⟨by omega, by omega, hticker, hcompany, body, ?_,
                hnotrl, data, arts, articles, hdec, hga, hmap, ?_, hrel⟩
              · rw [hdate]
                exact hbodymem
              · rw [hdate]
                exact hrfd
            · obtain ⟨h1, h2, h3, h4, h5⟩ := hmem row hrr
              exact ⟨by omega, by omega, h3, h4, h5⟩

/-- C7 counterexample: the claim, as stated, is false.  A 3-day run
whose middle day returns no articles yields rows dated 0 and 2: the
accumulated dates are strictly increasing but do not advance one day
at a time — the gap at day 1 remains, since a day with no surviving
articles emits no row. -/
theorem C7_gap_counterexample :
    fetch_gdelt_finance_news "ACME" "Acme Corp." 0 2 (some ["acme"]) 5
        (fun d _ =>
          if d = 1 then [Resp.text emptyBodyEx] else [Resp.text goodBodyEx]) =
      Except.ok
        [Row.mk 0 "Acme earnings stock" "ACME" "Acme Corp.",
         Row.mk 2 "Acme earnings stock" "ACME" "Acme Corp."] ∧
    ¬ List.Chain' (fun r1 r2 => r2.date = r1.date + 1)
        [Row.mk 0 "Acme earnings stock" "ACME" "Acme Corp.",
         Row.mk 2 "Acme earnings stock" "ACME" "Acme Corp."] :=
  ⟨rfl, by simp [List.chain'_cons]⟩

/-- C7 amended: in every completed fetch run the accumulated rows have
strictly increasing dates (hence no duplicates and at most one row per
date), every date lies in the requested range, and a row exists for a
date only when the filter-and-ranking pipeline, applied to the article
list decoded from one of that very day's actual response bodies,
yields a nonempty surviving set producing exactly that row; dates of
consecutive rows may differ by more than one day, since days with no
surviving articles produce no row. -/
theorem C7_run_row_invariants (ticker company : String)
    (start_day end_day : Nat) (company_keywords : Option (List String))
    (top_n : Nat) (resps : Nat → String → List Resp) (rows : List Row)
    (h : fetch_gdelt_finance_news ticker company start_day end_day
        company_keywords top_n resps = Except.ok rows) :
    List.Chain' (fun r1 r2 => r1.date < r2.date) rows ∧
    ∀ row ∈ rows, start_day ≤ row.date ∧ row.date ≤ end_day ∧
      ∃ body,
        Resp.text body ∈ resps row.date (cleaned_company_name company) ∧
        strContains body rateLimitMarker = false ∧
        ∃ data arts articles,
          decode_response body = some data ∧
          getArticles data = some arts ∧
          arts.mapM toArticle = some articles ∧
          rowForDay (company_keywords.getD [ticker, company]) ticker company
            top_n row.date articles = some row ∧
          relevant_articles (company_keywords.getD [ticker, company])
            (eng_filter articles) ≠ [] := by
  unfold fetch_gdelt_finance_news at h
  obtain ⟨hchain, hmem⟩ :=
    fetchRunAux_invariants (end_day + 1 - start_day) start_day rows h
  refine ⟨hchain, ?_⟩
  intro row hr
  obtain ⟨h1, h2, _, _, h5⟩ := hmem row hr
  exact ⟨h1, by omega, h5⟩

/-- C7 witness: the amended theorem applied to a concrete 2-day run
that emits a row on each day; each row is certified by the day's own
response body. -/
theorem C7_run_row_invariants_witness :
    fetch_gdelt_finance_news "ACME" "Acme Corp." 0 1 (some ["acme"]) 5
        (fun _ _ => [Resp.text goodBodyEx]) =
      Except.ok
        [Row.mk 0 "Acme earnings stock" "ACME" "Acme Corp.",
         Row.mk 1 "Acme earnings stock" "ACME" "Acme Corp."] ∧
    (List.Chain' (fun r1 r2 => r1.date < r2.date)
        [Row.mk 0 "Acme earnings stock" "ACME" "Acme Corp.",
         Row.mk 1 "Acme earnings stock" "ACME" "Acme Corp."] ∧
      ∀ row ∈
          [Row.mk 0 "Acme earnings stock" "ACME" "Acme Corp.",
           Row.mk 1 "Acme earnings stock" "ACME" "Acme Corp."],
        0 ≤ row.date ∧ row.date ≤ 1 ∧
        ∃ body,
          Resp.text body ∈ [Resp.text goodBodyEx] ∧
          strContains body rateLimitMarker = false ∧
          ∃ data arts articles,
            decode_response body = some data ∧
            getArticles data = some arts ∧
            arts.mapM toArticle = some articles ∧
            rowForDay ((some ["acme"]).getD ["ACME", "Acme Corp."]) "ACME"
              "Acme Corp." 5 row.date articles = some row ∧
            relevant_articles ((some ["acme"]).getD ["ACME", "Acme Corp."])
              (eng_filter articles) ≠ []) :=
  ⟨rfl,
    C7_run_row_invariants "ACME" "Acme Corp." 0 1 (some ["acme"]) 5
      (fun _ _ => [Resp.text goodBodyEx])
      [Row.mk 0 "Acme earnings stock" "ACME" "Acme Corp.",
       Row.mk 1 "Acme earnings stock" "ACME" "Acme Corp."] rfl⟩

/-- C9: calling the news fetcher with no company keyword list is the
same run as calling it with exactly the two-element list
[ticker, company_name] — the default applies to the primary and the
fallback filter alike, since the whole run coincides. -/
theorem C9_default_company_keywords (ticker company_name : String)
    (start_day end_day top_n : Nat) (resps : Nat → String → List Resp) :
    fetch_gdelt_finance_news ticker company_name start_day end_day none
        top_n resps =
      fetch_gdelt_finance_news ticker company_name start_day end_day
        (some [ticker, company_name]) top_n resps := rfl

/-- C10: every row of a completed run carries the original ticker and
company_name arguments verbatim, even though each day's request is
issued with the normalized company name (cleaned_company_name). -/
theorem C10_verbatim_row_fields (ticker company : String)
    (start_day end_day : Nat) (company_keywords : Option (List String))
    (top_n : Nat) (resps : Nat → String → List Resp) (rows : List Row)
    (h : fetch_gdelt_finance_news ticker company start_day end_day
        company_keywords top_n resps = Except.ok rows) :
    ∀ row ∈ rows, row.ticker = ticker ∧ row.company = company := by
  unfold fetch_gdelt_finance_news at h
  obtain ⟨_, hmem⟩ :=
    fetchRunAux_invariants (end_day + 1 - start_day) start_day rows h
  intro row hr
  obtain ⟨_, _, h3, h4, _⟩ := hmem row hr
  exact ⟨h3, h4⟩

/-- C10 witness: a concrete run for company name "Acme Corp.", whose
normalized query string "Acme Corp" differs from the verbatim name,
still stamps the verbatim name on its row. -/
theorem C10_verbatim_row_fields_witness :
    fetch_gdelt_finance_news "ACME" "Acme Corp." 0 0 (some ["acme"]) 5
        (fun _ _ => [Resp.text goodBodyEx]) =
      Except.ok [Row.mk 0 "Acme earnings stock" "ACME" "Acme Corp."] ∧
    cleaned_company_name "Acme Corp." = "Acme Corp" ∧
    cleaned_company_name "Acme Corp." ≠ "Acme Corp." ∧
    (∀ row ∈ [Row.mk 0 "Acme earnings stock" "ACME" "Acme Corp."],
      row.ticker = "ACME" ∧ row.company = "Acme Corp.") :=
  ⟨rfl, by decide, by decide,
    C10_verbatim_row_fields "ACME" "Acme Corp." 0 0 (some ["acme"]) 5
      (fun _ _ => [Resp.text goodBodyEx])
      [Row.mk 0 "Acme earnings stock" "ACME" "Acme Corp."] rfl⟩

/-! ## Claim C8 — indicator calculator -/

/-- Index characterisation of the zipWith backbone of pct_change. -/
lemma pct_change_zip_get (p : ℚ) (rest : List ℚ) :
    ∀ (t : Nat), t < rest.length →
      (List.zipWith (fun prev cur => some (cur / prev - 1)) (p :: rest)
          rest).getD t none =
        some ((p :: rest).getD (t + 1) 0 / (p :: rest).getD t 0 - 1) := by
  induction rest generalizing p with
  | nil => intro t ht; simp at ht
  | cons c cs ih =>
    intro t ht
    cases t with
    | zero => simp
    | succ t2 =>
      have ht2 : t2 < cs.length := by simpa using Nat.lt_of_succ_lt_succ ht
      have h := ih c t2 ht2
      simpa using h

/-- Index characterisation of the exponential-weighting recursion. -/
lemma ewm_aux_step (alpha : ℚ) :
    ∀ (rest : List ℚ) (prev : ℚ) (t : Nat), t < rest.length →
      (prev :: ewm_aux alpha prev rest).getD (t + 1) 0 =
        (1 - alpha) * (prev :: ewm_aux alpha prev rest).getD t 0 +
          alpha * rest.getD t 0 := by
  intro rest
  induction rest with
  | nil => intro prev t ht; simp at ht
  | cons c cs ih =>
    intro prev t ht
    cases t with
    | zero => simp [ewm_aux]
    | succ t2 =>
      have ht2 : t2 < cs.length := by simpa using Nat.lt_of_succ_lt_succ ht
      have h := ih ((1 - alpha) * prev + alpha * c) t2 ht2
      simpa [ewm_aux] using h

/-- C8: for every chronologically ordered price series, daily_return
is null at index 0 and price[t]/price[t-1] - 1 afterwards, and both
exponential moving averages are seeded with the first observed price
and follow the recursion ema[t] = (1-a)*ema[t-1] + a*price[t] with
a = 2/(span+1); in particular, for the series [100, 110, 121],
daily_return is [null, 1/10, 1/10] and both EMAs equal 100 at t=0. -/
theorem C8_indicator_formulas :
    (∀ (prices : List ℚ), 0 < prices.length →
      (pct_change prices).getD 0 none = none ∧
      (ewm_mean 7 prices).getD 0 0 = prices.getD 0 0 ∧
      (ewm_mean 21 prices).getD 0 0 = prices.getD 0 0) ∧
    (∀ (prices : List ℚ) (t : Nat), t + 1 < prices.length →
      (pct_change prices).getD (t + 1) none =
        some (prices.getD (t + 1) 0 / prices.getD t 0 - 1) ∧
      (∀ span : Nat,
        (ewm_mean span prices).getD (t + 1) 0 =
          (1 - (2 : ℚ) / ((span : ℚ) + 1)) *
              (ewm_mean span prices).getD t 0 +
            ((2 : ℚ) / ((span : ℚ) + 1)) * prices.getD (t + 1) 0)) ∧
    pct_change [100, 110, 121] = [none, some (1 / 10), some (1 / 10)] ∧
    (ewm_mean 7 [100, 110, 121]).getD 0 0 = 100 ∧
    (ewm_mean 21 [100, 110, 121]).getD 0 0 = 100 := by
  refine ⟨?_, ?_, ?_, ?_, ?_⟩
  · intro prices hlen
    cases prices with
    | nil => simp at hlen
    | cons p rest => exact ⟨rfl, rfl, rfl⟩
  · intro prices t ht
    cases prices with
    | nil => simp at ht
    | cons p rest =>
      have hlt : t < rest.length := by simpa using Nat.lt_of_succ_lt_succ ht
      constructor
      · exact pct_change_zip_get p rest t hlt
      · intro span
        have h := ewm_aux_step ((2 : ℚ) / ((span : ℚ) + 1)) rest p t hlt
        have hshift : rest.getD t 0 = (p :: rest).getD (t + 1) 0 := by simp
        rw [hshift] at h
        exact h
  · show pct_change [100, 110, 121] = [none, some (1 / 10), some (1 / 10)]
    unfold pct_change
    norm_num
  · rfl
  · rfl

/-- C8 witness: the theorem applied to the concrete price series
[100, 110, 121] at t = 0, discharging the length hypotheses. -/
theorem C8_indicator_formulas_witness :
    (0 < ([100, 110, 121] : List ℚ).length ∧
      ((pct_change [100, 110, 121]).getD 0 none = none ∧
        (ewm_mean 7 [100, 110, 121]).getD 0 0 =
          ([100, 110, 121] : List ℚ).getD 0 0 ∧
        (ewm_mean 21 [100, 110, 121]).getD 0 0 =
          ([100, 110, 121] : List ℚ).getD 0 0)) ∧
    (0 + 1 < ([100, 110, 121] : List ℚ).length ∧
      ((pct_change [100, 110, 121]).getD (0 + 1) none =
        some (([100, 110, 121] : List ℚ).getD (0 + 1) 0 /
          ([100, 110, 121] : List ℚ).getD 0 0 - 1) ∧
      (∀ span : Nat,
        (ewm_mean span [100, 110, 121]).getD (0 + 1) 0 =
          (1 - (2 : ℚ) / ((span : ℚ) + 1)) *
              (ewm_mean span [100, 110, 121]).getD 0 0 +
            ((2 : ℚ) / ((span : ℚ) + 1)) *
              ([100, 110, 121] : List ℚ).getD (0 + 1) 0))) :=
  ⟨⟨by norm_num, C8_indicator_formulas.1 [100, 110, 121] (by norm_num)⟩,
   ⟨by norm_num, C8_indicator_formulas.2.1 [100, 110, 121] 0 (by norm_num)⟩⟩

end StockGen
